import Mathlib

/-!
Shallow embedding of the URL-construction core of `gopen` (url.go and the
legacy builder in main.go). Go strings are modelled as `List Char`; the Go
standard-library helpers used by the source (`strings.Contains`,
`strings.Join`, `strings.SplitN`, `strings.Split`, `strings.TrimSuffix`,
`strings.TrimPrefix`, `strings.Replace` with count 1, and the one regular
expression `^git@([^:]+):(.+)$`) are modelled by the executable functions
below, each faithful to the documented semantics of its Go counterpart.
-/

namespace Gopen

/-- Go strings, modelled as lists of characters. -/
abbrev Str := List Char

/-- `strings.Contains s sub`: `sub` occurs as a contiguous substring of `s`. -/
def goContains (s sub : Str) : Bool := decide (sub <:+: s)

/-- `strings.Join parts "/"`: concatenate with `/` between consecutive parts. -/
def joinSlash : List Str → Str
  | [] => []
  | [s] => s
  | s :: rest => s ++ '/' :: joinSlash rest

/-- The loop inside `pathJoin` (url.go): keep only the non-empty segments. -/
def collectNonEmpty : List Str → List Str
  | [] => []
  | p :: rest => if p = [] then collectNonEmpty rest else p :: collectNonEmpty rest

/-- `pathJoin` (url.go): a slash-joined URL, skipping empty segments. -/
def pathJoin (parts : List Str) : Str :=
  joinSlash (collectNonEmpty parts)

/-- `anchorLN` (url.go): GitHub, Gitea, default: `#L42` or `#L42-L50`. -/
def anchorLN (start e : Str) : Str :=
  if start = [] then []
  else if e = [] then "#L".data ++ start
  else "#L".data ++ start ++ "-L".data ++ e

/-- `anchorGL` (url.go): GitLab: `#L42` or `#L42-50`. -/
def anchorGL (start e : Str) : Str :=
  if start = [] then []
  else if e = [] then "#L".data ++ start
  else "#L".data ++ start ++ "-".data ++ e

/-- `anchorBB` (url.go): Bitbucket: `#lines-42` or `#lines-42:50`. -/
def anchorBB (start e : Str) : Str :=
  if start = [] then []
  else if e = [] then "#lines-".data ++ start
  else "#lines-".data ++ start ++ ":".data ++ e

/-- `anchorADO` (url.go): Azure DevOps query parameters. -/
def anchorADO (start e : Str) : Str :=
  if start = [] then []
  else
    let e2 := if e = [] then start else e
    "&line=".data ++ start ++ "&lineEnd=".data ++ e2 ++
      "&lineStartColumn=1&lineEndColumn=1".data

/-- `provider` (url.go): how to build URLs for one git hosting platform.
The Go field `match` is called `matchURL` here (`match` is a Lean keyword). -/
structure provider where
  matchURL : Str → Bool
  treeURL : Str → Str → Str → Str
  commitURL : Str → Str → Str → Str
  lineAnchor : Str → Str → Str

/-- Entry 0 of the `providers` table (url.go): GitHub. -/
def githubProvider : provider where
  matchURL u := goContains u "github.com".data
  treeURL base ref path := pathJoin [base, "tree".data, ref, path]
  commitURL base hash path :=
    if path = [] then pathJoin [base, "commit".data, hash]
    else pathJoin [base, "blob".data, hash, path]
  lineAnchor := anchorLN

/-- Entry 1 of the `providers` table (url.go): GitLab. -/
def gitlabProvider : provider where
  matchURL u := goContains u "gitlab.com".data || goContains u "gitlab".data
  treeURL base ref path := pathJoin [base, "-/tree".data, ref, path]
  commitURL base hash path :=
    if path = [] then pathJoin [base, "-/commit".data, hash]
    else pathJoin [base, "-/blob".data, hash, path]
  lineAnchor := anchorGL

/-- Entry 2 of the `providers` table (url.go): Bitbucket. -/
def bitbucketProvider : provider where
  matchURL u := goContains u "bitbucket.org".data
  treeURL base ref path := pathJoin [base, "src".data, ref, path]
  commitURL base hash path :=
    if path = [] then pathJoin [base, "commits".data, hash]
    else pathJoin [base, "src".data, hash, path]
  lineAnchor := anchorBB

/-- Entry 3 of the `providers` table (url.go): Azure DevOps. -/
def azureProvider : provider where
  matchURL u := goContains u "dev.azure.com".data || goContains u "visualstudio.com".data
  treeURL base ref path :=
    if path = [] then base ++ "?version=GB".data ++ ref
    else base ++ "?version=GB".data ++ ref ++ "&path=/".data ++ path
  commitURL base hash path :=
    if path = [] then pathJoin [base, "commit".data, hash]
    else base ++ "?version=GC".data ++ hash ++ "&path=/".data ++ path
  lineAnchor := anchorADO

/-- Entry 4 of the `providers` table (url.go): Gitea. -/
def giteaProvider : provider where
  matchURL u := goContains u "gitea".data
  treeURL base ref path := pathJoin [base, "src/branch".data, ref, path]
  commitURL base hash path :=
    if path = [] then pathJoin [base, "commit".data, hash]
    else pathJoin [base, "src/commit".data, hash, path]
  lineAnchor := anchorLN

/-- Entry 5 of the `providers` table (url.go): Gogs. -/
def gogsProvider : provider where
  matchURL u := goContains u "gogs".data
  treeURL base ref path := pathJoin [base, "src".data, ref, path]
  commitURL base hash path :=
    if path = [] then pathJoin [base, "commit".data, hash]
    else pathJoin [base, "src".data, hash, path]
  lineAnchor := anchorLN

/-- Entry 6 of the `providers` table (url.go): AWS CodeCommit. -/
def codecommitProvider : provider where
  matchURL u := goContains u "console.aws.amazon.com".data || goContains u "codecommit".data
  treeURL base ref path :=
    if path = [] then pathJoin [base, "browse/refs/heads".data, ref, "--".data] ++ "/".data
    else pathJoin [base, "browse/refs/heads".data, ref, "--".data, path]
  commitURL base hash path :=
    if path = [] then pathJoin [base, "commit".data, hash]
    else pathJoin [base, "browse".data, hash, "--".data, path]
  lineAnchor _ _ := []

/-- The `providers` table (url.go), in registration order. -/
def providers : List provider :=
  [githubProvider, gitlabProvider, bitbucketProvider, azureProvider,
   giteaProvider, gogsProvider, codecommitProvider]

/-- `defaultProvider` (url.go): GitHub-style fallback. The Go value leaves the
`match` field nil and it is never invoked; it is modelled as constantly false. -/
def defaultProvider : provider where
  matchURL _ := false
  treeURL base ref path := pathJoin [base, "tree".data, ref, path]
  commitURL base hash path :=
    if path = [] then pathJoin [base, "commit".data, hash]
    else pathJoin [base, "blob".data, hash, path]
  lineAnchor := anchorLN

/-- `detectProvider` (url.go): first matching provider, else the default. -/
def detectProvider (baseURL : Str) : provider :=
  match providers.find? (fun p => p.matchURL baseURL) with
  | some p => p
  | none => defaultProvider

/-- `strings.SplitN s (String.singleton sep) 2`, in first/remainder form:
the part before the first `sep`, and `some remainder` when `sep` occurs. -/
def splitFirst (sep : Char) : Str → Str × Option Str
  | [] => ([], none)
  | c :: cs =>
    if c = sep then ([], some cs)
    else (c :: (splitFirst sep cs).1, (splitFirst sep cs).2)

/-- The line-spec parse at the head of `buildWebURL` (url.go):
`parts := strings.SplitN(lineNumber, "-", 2)` guarded by `lineNumber != ""`,
yielding `(startLine, endLine)` with `endLine = ""` when there is no dash. -/
def parseLineSpec (lineNumber : Str) : Str × Str :=
  if lineNumber = [] then ([], [])
  else ((splitFirst '-' lineNumber).1, ((splitFirst '-' lineNumber).2).getD [])

/-- `repoContext` (gopen): the git information needed to build a web URL. -/
structure repoContext where
  baseURL : Str
  branch : Str
  relPath : Str

/-- `buildWebURL` (url.go): provider-table URL builder. -/
def buildWebURL (ctx : repoContext) (lineNumber commitHash : Str) : Str :=
  let startLine := (parseLineSpec lineNumber).1
  let endLine := (parseLineSpec lineNumber).2
  let p := detectProvider ctx.baseURL
  let url :=
    if commitHash ≠ [] then p.commitURL ctx.baseURL commitHash ctx.relPath
    else p.treeURL ctx.baseURL ctx.branch ctx.relPath
  url ++ p.lineAnchor startLine endLine

/-- `strings.TrimSuffix s suf`. -/
def trimSuf (s suf : Str) : Str :=
  if suf.isSuffixOf s then s.take (s.length - suf.length) else s

/-- `strings.TrimPrefix s pre`. -/
def dropPre (s pre : Str) : Str :=
  if pre.isPrefixOf s then s.drop pre.length else s

/-- `strings.Replace s (String.singleton c) (String.singleton d) 1`:
replace the first occurrence of `c` by `d`. -/
def replaceFirst (c d : Char) : Str → Str
  | [] => []
  | x :: xs => if x = c then d :: xs else x :: replaceFirst c d xs

/-- The regular expression `^git@([^:]+):(.+)$` of `convertToHTTPS`:
`some (host, rest)` when `s = "git@" ++ host ++ ":" ++ rest` with `host`
non-empty and colon-free and `rest` non-empty, else `none`. -/
def matchGitAt (s : Str) : Option (Str × Str) :=
  if "git@".data.isPrefixOf s then
    match (splitFirst ':' (s.drop 4)).2 with
    | none => none
    | some rest =>
      if (splitFirst ':' (s.drop 4)).1 = [] then none
      else if rest = [] then none
      else some ((splitFirst ':' (s.drop 4)).1, rest)
  else none

/-- `convertToHTTPS` (url.go, identical in main.go): normalize a remote URL. -/
def convertToHTTPS (url : Str) : Str :=
  let u := trimSuf url ".git".data
  match matchGitAt u with
  | some hp => "https://".data ++ hp.1 ++ '/' :: hp.2
  | none =>
    if "ssh://".data.isPrefixOf u then
      "https://".data ++ replaceFirst ':' '/' (dropPre (u.drop 6) "git@".data)
    else if "git://".data.isPrefixOf u then
      "https://".data ++ u.drop 6
    else u

/-- `strings.Split s (String.singleton sep)`: split on every occurrence. -/
def splitAll (sep : Char) : Str → List Str
  | [] => [[]]
  | c :: cs =>
    if c = sep then [] :: splitAll sep cs
    else
      match splitAll sep cs with
      | [] => [[c]]
      | r :: rest => (c :: r) :: rest

/-- `buildWebURL` (main.go, legacy five-argument form): the per-platform
switch, with the line spec parsed by `strings.Split` (full split). -/
def buildWebURLLegacy (baseURL branch relPath0 lineNumber commitHash : Str) : Str :=
  let relPath := if relPath0 = ".".data ∨ relPath0 = [] then [] else relPath0
  let startLine :=
    if lineNumber = [] then [] else (splitAll '-' lineNumber).headI
  let endLine :=
    if lineNumber = [] then [] else ((splitAll '-' lineNumber).tail).headI
  if goContains baseURL "github.com".data then
    (if commitHash ≠ [] then
      (if relPath = [] then baseURL ++ "/commit/".data ++ commitHash
       else baseURL ++ "/blob/".data ++ commitHash ++ "/".data ++ relPath)
     else if relPath = [] then baseURL ++ "/tree/".data ++ branch
     else baseURL ++ "/tree/".data ++ branch ++ "/".data ++ relPath) ++
    (if startLine ≠ [] then
      (if endLine ≠ [] then "#L".data ++ startLine ++ "-L".data ++ endLine
       else "#L".data ++ startLine)
     else [])
  else if goContains baseURL "gitlab.com".data || goContains baseURL "gitlab".data then
    (if commitHash ≠ [] then
      (if relPath = [] then baseURL ++ "/-/commit/".data ++ commitHash
       else baseURL ++ "/-/blob/".data ++ commitHash ++ "/".data ++ relPath)
     else if relPath = [] then baseURL ++ "/-/tree/".data ++ branch
     else baseURL ++ "/-/tree/".data ++ branch ++ "/".data ++ relPath) ++
    (if startLine ≠ [] then
      (if endLine ≠ [] then "#L".data ++ startLine ++ "-".data ++ endLine
       else "#L".data ++ startLine)
     else [])
  else if goContains baseURL "bitbucket.org".data then
    (if commitHash ≠ [] then
      (if relPath = [] then baseURL ++ "/commits/".data ++ commitHash
       else baseURL ++ "/src/".data ++ commitHash ++ "/".data ++ relPath)
     else if relPath = [] then baseURL ++ "/src/".data ++ branch
     else baseURL ++ "/src/".data ++ branch ++ "/".data ++ relPath) ++
    (if startLine ≠ [] then
      (if endLine ≠ [] then "#lines-".data ++ startLine ++ ":".data ++ endLine
       else "#lines-".data ++ startLine)
     else [])
  else if goContains baseURL "dev.azure.com".data || goContains baseURL "visualstudio.com".data then
    (if commitHash ≠ [] then
      (if relPath = [] then baseURL ++ "/commit/".data ++ commitHash
       else baseURL ++ "?version=GC".data ++ commitHash ++ "&path=/".data ++ relPath)
     else if relPath = [] then baseURL ++ "?version=GB".data ++ branch
     else baseURL ++ "?version=GB".data ++ branch ++ "&path=/".data ++ relPath) ++
    (if startLine ≠ [] then
      (if endLine ≠ [] then
        "&line=".data ++ startLine ++ "&lineEnd=".data ++ endLine ++
          "&lineStartColumn=1&lineEndColumn=1".data
       else
        "&line=".data ++ startLine ++ "&lineEnd=".data ++ startLine ++
          "&lineStartColumn=1&lineEndColumn=1".data)
     else [])
  else if goContains baseURL "gitea".data then
    (if commitHash ≠ [] then
      (if relPath = [] then baseURL ++ "/commit/".data ++ commitHash
       else baseURL ++ "/src/commit/".data ++ commitHash ++ "/".data ++ relPath)
     else if relPath = [] then baseURL ++ "/src/branch/".data ++ branch
     else baseURL ++ "/src/branch/".data ++ branch ++ "/".data ++ relPath) ++
    (if startLine ≠ [] then
      (if endLine ≠ [] then "#L".data ++ startLine ++ "-L".data ++ endLine
       else "#L".data ++ startLine)
     else [])
  else if goContains baseURL "gogs".data then
    (if commitHash ≠ [] then
      (if relPath = [] then baseURL ++ "/commit/".data ++ commitHash
       else baseURL ++ "/src/".data ++ commitHash ++ "/".data ++ relPath)
     else if relPath = [] then baseURL ++ "/src/".data ++ branch
     else baseURL ++ "/src/".data ++ branch ++ "/".data ++ relPath) ++
    (if startLine ≠ [] then
      (if endLine ≠ [] then "#L".data ++ startLine ++ "-L".data ++ endLine
       else "#L".data ++ startLine)
     else [])
  else if goContains baseURL "console.aws.amazon.com".data || goContains baseURL "codecommit".data then
    (if commitHash ≠ [] then
      (if relPath = [] then baseURL ++ "/commit/".data ++ commitHash
       else baseURL ++ "/browse/".data ++ commitHash ++ "/--/".data ++ relPath)
     else if relPath = [] then baseURL ++ "/browse/refs/heads/".data ++ branch ++ "/--/".data
     else baseURL ++ "/browse/refs/heads/".data ++ branch ++ "/--/".data ++ relPath)
  else
    (if commitHash ≠ [] then
      (if relPath = [] then baseURL ++ "/commit/".data ++ commitHash
       else baseURL ++ "/blob/".data ++ commitHash ++ "/".data ++ relPath)
     else if relPath = [] then baseURL ++ "/tree/".data ++ branch
     else baseURL ++ "/tree/".data ++ branch ++ "/".data ++ relPath) ++
    (if startLine ≠ [] then
      (if endLine ≠ [] then "#L".data ++ startLine ++ "-L".data ++ endLine
       else "#L".data ++ startLine)
     else [])


namespace Lemmas

/-! ### Basic facts about the string helpers -/

lemma goContains_iff {s sub : Str} : goContains s sub = true ↔ sub <:+: s := by
  simp [goContains]

lemma pathJoin3 {b t r : Str} (hb : b ≠ []) (ht : t ≠ []) (hr : r ≠ []) :
    pathJoin [b, t, r] = b ++ '/' :: (t ++ '/' :: r) := by
  simp [pathJoin, collectNonEmpty, hb, ht, hr, joinSlash]

lemma pathJoin4 {b t r p : Str} (hb : b ≠ []) (ht : t ≠ []) (hr : r ≠ []) (hp : p ≠ []) :
    pathJoin [b, t, r, p] = b ++ '/' :: (t ++ '/' :: (r ++ '/' :: p)) := by
  simp [pathJoin, collectNonEmpty, hb, ht, hr, hp, joinSlash]

lemma pathJoin4_nil {b t r : Str} (hb : b ≠ []) (ht : t ≠ []) (hr : r ≠ []) :
    pathJoin [b, t, r, []] = b ++ '/' :: (t ++ '/' :: r) := by
  simp [pathJoin, collectNonEmpty, hb, ht, hr, joinSlash]

lemma getLast?_append_right {X r : Str} (hr : r ≠ []) :
    (X ++ r).getLast? = r.getLast? := by
  obtain ⟨a, ha⟩ := Option.ne_none_iff_exists'.1 (mt List.getLast?_eq_none_iff.1 hr)
  simp [List.getLast?_append, ha]

/-! ### Selecting a provider -/

lemma detect_github {b : Str} (h0 : goContains b "github.com".data = true) :
    detectProvider b = githubProvider := by
  simp [detectProvider, providers, List.find?, githubProvider, h0]

lemma detect_gitlab {b : Str} (h0 : goContains b "github.com".data = false)
    (h1 : (goContains b "gitlab.com".data || goContains b "gitlab".data) = true) :
    detectProvider b = gitlabProvider := by
  simp [detectProvider, providers, List.find?, githubProvider, gitlabProvider, h0, h1]

lemma detect_bitbucket {b : Str} (h0 : goContains b "github.com".data = false)
    (h1 : (goContains b "gitlab.com".data || goContains b "gitlab".data) = false)
    (h2 : goContains b "bitbucket.org".data = true) :
    detectProvider b = bitbucketProvider := by
  simp [detectProvider, providers, List.find?, githubProvider, gitlabProvider,
    bitbucketProvider, h0, h1, h2]

lemma detect_azure {b : Str} (h0 : goContains b "github.com".data = false)
    (h1 : (goContains b "gitlab.com".data || goContains b "gitlab".data) = false)
    (h2 : goContains b "bitbucket.org".data = false)
    (h3 : (goContains b "dev.azure.com".data || goContains b "visualstudio.com".data) = true) :
    detectProvider b = azureProvider := by
  simp [detectProvider, providers, List.find?, githubProvider, gitlabProvider,
    bitbucketProvider, azureProvider, h0, h1, h2, h3]

lemma detect_gitea {b : Str} (h0 : goContains b "github.com".data = false)
    (h1 : (goContains b "gitlab.com".data || goContains b "gitlab".data) = false)
    (h2 : goContains b "bitbucket.org".data = false)
    (h3 : (goContains b "dev.azure.com".data || goContains b "visualstudio.com".data) = false)
    (h4 : goContains b "gitea".data = true) :
    detectProvider b = giteaProvider := by
  simp [detectProvider, providers, List.find?, githubProvider, gitlabProvider,
    bitbucketProvider, azureProvider, giteaProvider, h0, h1, h2, h3, h4]

lemma detect_gogs {b : Str} (h0 : goContains b "github.com".data = false)
    (h1 : (goContains b "gitlab.com".data || goContains b "gitlab".data) = false)
    (h2 : goContains b "bitbucket.org".data = false)
    (h3 : (goContains b "dev.azure.com".data || goContains b "visualstudio.com".data) = false)
    (h4 : goContains b "gitea".data = false)
    (h5 : goContains b "gogs".data = true) :
    detectProvider b = gogsProvider := by
  simp [detectProvider, providers, List.find?, githubProvider, gitlabProvider,
    bitbucketProvider, azureProvider, giteaProvider, gogsProvider, h0, h1, h2, h3, h4, h5]

lemma detect_codecommit {b : Str} (h0 : goContains b "github.com".data = false)
    (h1 : (goContains b "gitlab.com".data || goContains b "gitlab".data) = false)
    (h2 : goContains b "bitbucket.org".data = false)
    (h3 : (goContains b "dev.azure.com".data || goContains b "visualstudio.com".data) = false)
    (h4 : goContains b "gitea".data = false)
    (h5 : goContains b "gogs".data = false)
    (h6 : (goContains b "console.aws.amazon.com".data || goContains b "codecommit".data) = true) :
    detectProvider b = codecommitProvider := by
  simp [detectProvider, providers, List.find?, githubProvider, gitlabProvider,
    bitbucketProvider, azureProvider, giteaProvider, gogsProvider, codecommitProvider,
    h0, h1, h2, h3, h4, h5, h6]

lemma detect_default {b : Str} (h0 : goContains b "github.com".data = false)
    (h1 : (goContains b "gitlab.com".data || goContains b "gitlab".data) = false)
    (h2 : goContains b "bitbucket.org".data = false)
    (h3 : (goContains b "dev.azure.com".data || goContains b "visualstudio.com".data) = false)
    (h4 : goContains b "gitea".data = false)
    (h5 : goContains b "gogs".data = false)
    (h6 : (goContains b "console.aws.amazon.com".data || goContains b "codecommit".data) = false) :
    detectProvider b = defaultProvider := by
  simp [detectProvider, providers, List.find?, githubProvider, gitlabProvider,
    bitbucketProvider, azureProvider, giteaProvider, gogsProvider, codecommitProvider,
    h0, h1, h2, h3, h4, h5, h6]

/-! ### The line-spec split -/

lemma splitFirst_append_sep (sep : Char) (s t : Str) (hs : sep ∉ s) :
    splitFirst sep (s ++ sep :: t) = (s, some t) := by
  induction s with
  | nil => simp [splitFirst]
  | cons c cs ih =>
    have hc : c ≠ sep := fun h => hs (h ▸ List.mem_cons_self c cs)
    have hcs : sep ∉ cs := fun h => hs (List.mem_cons_of_mem c h)
    simp [splitFirst, hc, ih hcs]

lemma splitFirst_no_sep (sep : Char) (s : Str) (hs : sep ∉ s) :
    splitFirst sep s = (s, none) := by
  induction s with
  | nil => rfl
  | cons c cs ih =>
    have hc : c ≠ sep := fun h => hs (h ▸ List.mem_cons_self c cs)
    have hcs : sep ∉ cs := fun h => hs (List.mem_cons_of_mem c h)
    simp [splitFirst, hc, ih hcs]

end Lemmas

open Lemmas

/-- C10: `buildWebURL` is deterministic: two invocations on equal repository
contexts, line specs and commit hashes return identical URL strings. -/
theorem buildWebURL_deterministic (ctx ctx' : repoContext) (line line' hash hash' : Str)
    (hc : ctx = ctx') (hl : line = line') (hh : hash = hash') :
    buildWebURL ctx line hash = buildWebURL ctx' line' hash' := by
  rw [hc, hl, hh]

/-- Witness for C10 at a concrete GitHub context. -/
theorem buildWebURL_deterministic_witness :
    buildWebURL ⟨"https://github.com/u/r".data, "main".data, "f.go".data⟩ "42".data [] =
      buildWebURL ⟨"https://github.com/u/r".data, "main".data, "f.go".data⟩ "42".data [] :=
  buildWebURL_deterministic _ _ _ _ _ _ rfl rfl rfl

/-- C5: contract of the five line-anchor builders: empty start gives the empty
fragment whatever the end; non-empty start with empty end gives the platform's
single-line form; both non-empty give the platform's range form; the CodeCommit
anchor is constantly empty. -/
theorem lineAnchor_contract :
    (∀ e : Str, anchorLN [] e = [] ∧ anchorGL [] e = [] ∧ anchorBB [] e = [] ∧
      anchorADO [] e = [] ∧ codecommitProvider.lineAnchor [] e = []) ∧
    (∀ s : Str, s ≠ [] →
      anchorLN s [] = "#L".data ++ s ∧ anchorGL s [] = "#L".data ++ s ∧
      anchorBB s [] = "#lines-".data ++ s ∧
      anchorADO s [] = "&line=".data ++ s ++ "&lineEnd=".data ++ s ++
        "&lineStartColumn=1&lineEndColumn=1".data ∧
      codecommitProvider.lineAnchor s [] = []) ∧
    (∀ s e : Str, s ≠ [] → e ≠ [] →
      anchorLN s e = "#L".data ++ s ++ "-L".data ++ e ∧
      anchorGL s e = "#L".data ++ s ++ "-".data ++ e ∧
      anchorBB s e = "#lines-".data ++ s ++ ":".data ++ e ∧
      anchorADO s e = "&line=".data ++ s ++ "&lineEnd=".data ++ e ++
        "&lineStartColumn=1&lineEndColumn=1".data ∧
      codecommitProvider.lineAnchor s e = []) := by
  refine ⟨fun e => ⟨rfl, rfl, rfl, rfl, rfl⟩, fun s hs => ?_, fun s e hs he => ?_⟩
  · simp [anchorLN, anchorGL, anchorBB, anchorADO, codecommitProvider, hs]
  · simp [anchorLN, anchorGL, anchorBB, anchorADO, codecommitProvider, hs, he]

/-- Witness for C5 at start = "42", end = "50". -/
theorem lineAnchor_contract_witness :
    anchorLN "42".data "50".data = "#L".data ++ "42".data ++ "-L".data ++ "50".data :=
  (lineAnchor_contract.2.2 "42".data "50".data (by decide) (by decide)).1

/-- C4: `buildWebURL` splits the raw line spec on the first dash only: the part
before the first dash is the start line and the whole remainder is the end line
verbatim, so "1-2-3" parses to ("1", "2-3") and a GitHub tree URL gets the
anchor "#L1-L2-3". -/
theorem lineSpec_split_first_dash :
    (∀ s t : Str, '-' ∉ s → parseLineSpec (s ++ '-' :: t) = (s, t)) ∧
    parseLineSpec "1-2-3".data = ("1".data, "2-3".data) ∧
    (∀ ctx : repoContext, goContains ctx.baseURL "github.com".data = true →
      buildWebURL ctx "1-2-3".data [] =
        githubProvider.treeURL ctx.baseURL ctx.branch ctx.relPath ++ "#L1-L2-3".data) := by
  refine ⟨fun s t hs => ?_, by decide, fun ctx h => ?_⟩
  · have hne : s ++ '-' :: t ≠ [] := by simp
    simp [parseLineSpec, hne, splitFirst_append_sep '-' s t hs]
  · simp only [buildWebURL, detect_github h]
    norm_num
    rfl

/-- Witness for C4: the split at a concrete multi-dash spec, and the GitHub
anchor at a concrete context. -/
theorem lineSpec_split_first_dash_witness :
    buildWebURL ⟨"https://github.com/u/r".data, "main".data, []⟩ "1-2-3".data [] =
      githubProvider.treeURL "https://github.com/u/r".data "main".data [] ++ "#L1-L2-3".data :=
  lineSpec_split_first_dash.2.2 ⟨"https://github.com/u/r".data, "main".data, []⟩ (by decide)

/-- C3 counterexample: a base URL containing both "github.com" and "gitlab.com"
routes to the GitHub descriptor, not the GitLab one, because the GitHub matcher
is scanned first. -/
theorem detectProvider_gitlab_cex :
    goContains "github.com/x/gitlab.com".data "gitlab.com".data = true ∧
    detectProvider "github.com/x/gitlab.com".data = githubProvider ∧
    githubProvider ≠ gitlabProvider := by
  refine ⟨by decide, rfl, fun h => ?_⟩
  have h2 := congrArg (fun p => p.treeURL [] "m".data []) h
  exact absurd h2 (by decide)

/-- C3 (amended): a base URL containing "gitlab.com" routes to the GitLab
descriptor whenever it does not also contain "github.com"; in every case the
scan stops at the GitHub or GitLab entry and never reaches the default. -/
theorem detectProvider_gitlab (u : Str) (h : goContains u "gitlab.com".data = true) :
    (goContains u "github.com".data = false → detectProvider u = gitlabProvider) ∧
    (detectProvider u = githubProvider ∨ detectProvider u = gitlabProvider) := by
  constructor
  · intro h0; exact detect_gitlab h0 (by simp [h])
  · by_cases h0 : goContains u "github.com".data = true
    · exact Or.inl (detect_github h0)
    · exact Or.inr (detect_gitlab (by simpa using h0) (by simp [h]))

/-- Witness for C3's amended theorem at "https://gitlab.com/u/r". -/
theorem detectProvider_gitlab_witness :
    detectProvider "https://gitlab.com/u/r".data = gitlabProvider :=
  (detectProvider_gitlab "https://gitlab.com/u/r".data (by decide)).1 (by decide)


/-- C1 counterexample: the CodeCommit descriptor's tree-URL builder at the
repository root produces a URL that ends in a dangling slash, so the claim
does not hold for every provider. -/
theorem treeURL_root_cex :
    codecommitProvider.treeURL "https://console.aws.amazon.com/repo".data "main".data [] =
      "https://console.aws.amazon.com/repo/browse/refs/heads/main/--/".data ∧
    (codecommitProvider.treeURL "https://console.aws.amazon.com/repo".data "main".data
      []).getLast? = some '/' ∧
    (buildWebURL ⟨"https://console.aws.amazon.com/repo".data, "main".data, []⟩ [] []).getLast? =
      some '/' :=
  ⟨by decide, by decide, by decide⟩

/-- C1 (amended): with a non-empty base and branch whose branch does not end in
a slash, every provider's tree-URL builder at the repository root omits the
trailing path segment, and the root URL ends without a slash for every provider
except CodeCommit, whose builder deliberately appends one. -/
theorem treeURL_root_shapes (b r : Str) (hb : b ≠ []) (hr : r ≠ [])
    (hsl : r.getLast? ≠ some '/') :
    githubProvider.treeURL b r [] = b ++ "/tree/".data ++ r ∧
    gitlabProvider.treeURL b r [] = b ++ "/-/tree/".data ++ r ∧
    bitbucketProvider.treeURL b r [] = b ++ "/src/".data ++ r ∧
    azureProvider.treeURL b r [] = b ++ "?version=GB".data ++ r ∧
    giteaProvider.treeURL b r [] = b ++ "/src/branch/".data ++ r ∧
    gogsProvider.treeURL b r [] = b ++ "/src/".data ++ r ∧
    defaultProvider.treeURL b r [] = b ++ "/tree/".data ++ r ∧
    codecommitProvider.treeURL b r [] =
      b ++ "/browse/refs/heads/".data ++ r ++ "/--/".data ∧
    (githubProvider.treeURL b r []).getLast? ≠ some '/' ∧
    (gitlabProvider.treeURL b r []).getLast? ≠ some '/' ∧
    (bitbucketProvider.treeURL b r []).getLast? ≠ some '/' ∧
    (azureProvider.treeURL b r []).getLast? ≠ some '/' ∧
    (giteaProvider.treeURL b r []).getLast? ≠ some '/' ∧
    (gogsProvider.treeURL b r []).getLast? ≠ some '/' ∧
    (defaultProvider.treeURL b r []).getLast? ≠ some '/' ∧
    (codecommitProvider.treeURL b r []).getLast? = some '/' := by
  have hgh : githubProvider.treeURL b r [] = b ++ "/tree/".data ++ r := by
    show pathJoin [b, "tree".data, r, []] = _
    rw [pathJoin4_nil hb (by decide) hr]
    simp [List.append_assoc]
  have hgl : gitlabProvider.treeURL b r [] = b ++ "/-/tree/".data ++ r := by
    show pathJoin [b, "-/tree".data, r, []] = _
    rw [pathJoin4_nil hb (by decide) hr]
    simp [List.append_assoc]
  have hbb : bitbucketProvider.treeURL b r [] = b ++ "/src/".data ++ r := by
    show pathJoin [b, "src".data, r, []] = _
    rw [pathJoin4_nil hb (by decide) hr]
    simp [List.append_assoc]
  have haz : azureProvider.treeURL b r [] = b ++ "?version=GB".data ++ r := rfl
  have hgt : giteaProvider.treeURL b r [] = b ++ "/src/branch/".data ++ r := by
    show pathJoin [b, "src/branch".data, r, []] = _
    rw [pathJoin4_nil hb (by decide) hr]
    simp [List.append_assoc]
  have hgs : gogsProvider.treeURL b r [] = b ++ "/src/".data ++ r := by
    show pathJoin [b, "src".data, r, []] = _
    rw [pathJoin4_nil hb (by decide) hr]
    simp [List.append_assoc]
  have hdf : defaultProvider.treeURL b r [] = b ++ "/tree/".data ++ r := hgh
  have hcc : codecommitProvider.treeURL b r [] =
      b ++ "/browse/refs/heads/".data ++ r ++ "/--/".data := by
    show pathJoin [b, "browse/refs/heads".data, r, "--".data] ++ "/".data = _
    rw [pathJoin4 hb (by decide) hr (by decide)]
    simp [List.append_assoc]
  have hlast : ∀ X : Str, (X ++ r).getLast? ≠ some '/' := by
    intro X
    rw [getLast?_append_right hr]
    exact hsl
  refine ⟨hgh, hgl, hbb, haz, hgt, hgs, hdf, hcc, ?_, ?_, ?_, ?_, ?_, ?_, ?_, ?_⟩
  · rw [hgh]; exact hlast _
  · rw [hgl]; exact hlast _
  · rw [hbb]; exact hlast _
  · rw [haz]; exact hlast _
  · rw [hgt]; exact hlast _
  · rw [hgs]; exact hlast _
  · rw [hdf]; exact hlast _
  · rw [hcc, getLast?_append_right (by decide)]
    decide

/-- Witness for C1's amended theorem at a concrete base and branch. -/
theorem treeURL_root_shapes_witness :
    githubProvider.treeURL "https://h/u/r".data "main".data [] =
      "https://h/u/r".data ++ "/tree/".data ++ "main".data :=
  (treeURL_root_shapes "https://h/u/r".data "main".data (by decide) (by decide)
    (by decide)).1

/-- C6: `detectProvider` is total: it returns the first registered descriptor
whose matcher accepts the base URL, and when no matcher accepts it, it returns
the default descriptor, whose three builders are exactly the GitHub-style ones
(`tree/<ref>/<path>`, `commit/<hash>` at the root, `blob/<hash>/<path>` with a
path, `#L` anchors). -/
theorem detectProvider_total :
    (∀ u : Str,
      (∃ pre post, providers = pre ++ detectProvider u :: post ∧
        (detectProvider u).matchURL u = true ∧ ∀ q ∈ pre, q.matchURL u = false) ∨
      ((∀ p ∈ providers, p.matchURL u = false) ∧ detectProvider u = defaultProvider)) ∧
    defaultProvider.treeURL = githubProvider.treeURL ∧
    defaultProvider.commitURL = githubProvider.commitURL ∧
    defaultProvider.lineAnchor = anchorLN ∧
    (∀ b h pa : Str, b ≠ [] → h ≠ [] → pa ≠ [] →
      defaultProvider.treeURL b h pa = b ++ "/tree/".data ++ h ++ "/".data ++ pa ∧
      defaultProvider.commitURL b h [] = b ++ "/commit/".data ++ h ∧
      defaultProvider.commitURL b h pa = b ++ "/blob/".data ++ h ++ "/".data ++ pa) := by
  refine ⟨fun u => ?_, rfl, rfl, rfl, fun b h pa hb hh hpa => ⟨?_, ?_, ?_⟩⟩
  · cases hf : providers.find? (fun p => p.matchURL u) with
    | some p =>
      have hd : detectProvider u = p := by simp [detectProvider, hf]
      obtain ⟨hp, pre, post, heq, hpre⟩ := List.find?_eq_some.mp hf
      refine Or.inl ⟨pre, post, ?_, ?_, fun q hq => ?_⟩
      · rw [hd]; exact heq
      · rw [hd]; exact hp
      · simpa using hpre q hq
    | none =>
      have hall := List.find?_eq_none.mp hf
      exact Or.inr ⟨fun p hp => by simpa using hall p hp, by simp [detectProvider, hf]⟩
  · show pathJoin [b, "tree".data, h, pa] = _
    rw [pathJoin4 hb (by decide) hh hpa]
    simp [List.append_assoc]
  · show pathJoin [b, "commit".data, h] = _
    rw [pathJoin3 hb (by decide) hh]
    simp [List.append_assoc]
  · show (if pa = [] then pathJoin [b, "commit".data, h]
      else pathJoin [b, "blob".data, h, pa]) = _
    rw [if_neg hpa, pathJoin4 hb (by decide) hh hpa]
    simp [List.append_assoc]

/-- Witness for C6 at a concrete base URL, hash and path. -/
theorem detectProvider_total_witness :
    defaultProvider.commitURL "https://h/u/r".data "abc".data "f.go".data =
      "https://h/u/r".data ++ "/blob/".data ++ "abc".data ++ "/".data ++ "f.go".data :=
  (detectProvider_total.2.2.2.2 "https://h/u/r".data "abc".data "f.go".data
    (by decide) (by decide) (by decide)).2.2


namespace Lemmas

/-! ### Substring facts for the commit-vs-tree shape claim -/

lemma prefix_through_sep {n X Y : Str} {c : Char} (hc : c ∉ n) :
    n <+: X ++ c :: Y → n <+: X := by
  induction X generalizing n with
  | nil =>
    intro h
    rcases List.prefix_cons_iff.mp h with h0 | ⟨t, ht, _⟩
    · simp [h0]
    · exact absurd (ht ▸ List.mem_cons_self c t) hc
  | cons x X ih =>
    intro h
    simp only [List.cons_append] at h
    rcases List.prefix_cons_iff.mp h with h0 | ⟨t, ht, htp⟩
    · simp [h0]
    · subst ht
      have hct : c ∉ t := fun hm => hc (List.mem_cons_of_mem x hm)
      exact List.cons_prefix_cons.mpr ⟨rfl, ih hct htp⟩

lemma infix_through_sep {n X Y : Str} {c : Char} (hc : c ∉ n) :
    n <:+: X ++ c :: Y → n <:+: X ∨ n <:+: Y := by
  induction X with
  | nil =>
    intro h
    rcases List.infix_cons_iff.mp h with h1 | h2
    · rcases List.prefix_cons_iff.mp h1 with h0 | ⟨t, ht, _⟩
      · exact Or.inl (by simp [h0])
      · exact absurd (ht ▸ List.mem_cons_self c t) hc
    · exact Or.inr h2
  | cons x X ih =>
    intro h
    simp only [List.cons_append] at h
    rcases List.infix_cons_iff.mp h with h1 | h2
    · exact Or.inl (prefix_through_sep hc (by simpa using h1)).isInfix
    · rcases ih h2 with h3 | h4
      · exact Or.inl (List.infix_cons h3)
      · exact Or.inr h4

lemma noTree_seg {X Y : Str} (hX : ¬ "tree".data <:+: X) (hY : ¬ "tree".data <:+: Y) :
    ¬ "tree".data <:+: X ++ '/' :: Y :=
  fun h => (infix_through_sep (by decide) h).elim hX hY

lemma splitFirst_fst_subset (sep : Char) : ∀ s : Str, (splitFirst sep s).1 ⊆ s := by
  intro s
  induction s with
  | nil => simp [splitFirst]
  | cons c cs ih =>
    by_cases h : c = sep
    · simp [splitFirst, h]
    · simpa [splitFirst, h] using List.cons_subset_cons c ih

lemma splitFirst_snd_subset (sep : Char) :
    ∀ s r : Str, (splitFirst sep s).2 = some r → r ⊆ s := by
  intro s
  induction s with
  | nil => simp [splitFirst]
  | cons c cs ih =>
    intro r hr
    by_cases h : c = sep
    · simp [splitFirst, h] at hr
      subst hr
      exact fun a ha => List.mem_cons_of_mem c ha
    · simp [splitFirst, h] at hr
      exact fun a ha => List.mem_cons_of_mem c (ih r hr ha)

lemma parseLineSpec_fst_subset (line : Str) : (parseLineSpec line).1 ⊆ line := by
  by_cases h : line = []
  · simp [parseLineSpec, h]
  · simpa [parseLineSpec, h] using splitFirst_fst_subset '-' line

lemma parseLineSpec_snd_subset (line : Str) : (parseLineSpec line).2 ⊆ line := by
  by_cases h : line = []
  · simp [parseLineSpec, h]
  · cases hr : (splitFirst '-' line).2 with
    | none => simp [parseLineSpec, h, hr]
    | some r => simpa [parseLineSpec, h, hr] using splitFirst_snd_subset '-' line r hr

lemma t_not_mem_of_wf {line : Str} (hl : ∀ c ∈ line, c.isDigit ∨ c = '-') :
    't' ∉ line := by
  intro h
  rcases hl 't' h with h1 | h1
  · exact absurd h1 (by decide)
  · exact absurd h1 (by decide)

lemma anchorLN_eq_nil_or_hash (s e : Str) :
    anchorLN s e = [] ∨
    ∃ A, anchorLN s e = '#' :: A ∧ ∀ c ∈ A, c ∈ s ∨ c ∈ e ∨ c = 'L' ∨ c = '-' := by
  by_cases hs : s = []
  · exact Or.inl (by simp [anchorLN, hs])
  · by_cases he : e = []
    · refine Or.inr ⟨'L' :: s, by simp [anchorLN, hs, he], fun c hc => ?_⟩
      rcases List.mem_cons.mp hc with h | h
      · exact Or.inr (Or.inr (Or.inl h))
      · exact Or.inl h
    · refine Or.inr ⟨'L' :: (s ++ '-' :: 'L' :: e),
        by simp [anchorLN, hs, he, List.append_assoc], fun c hc => ?_⟩
      rcases List.mem_cons.mp hc with h | h
      · exact Or.inr (Or.inr (Or.inl h))
      · rcases List.mem_append.mp h with h1 | h1
        · exact Or.inl h1
        · rcases List.mem_cons.mp h1 with h2 | h2
          · exact Or.inr (Or.inr (Or.inr h2))
          · rcases List.mem_cons.mp h2 with h3 | h3
            · exact Or.inr (Or.inr (Or.inl h3))
            · exact Or.inr (Or.inl h3)

lemma anchorGL_eq_nil_or_hash (s e : Str) :
    anchorGL s e = [] ∨
    ∃ A, anchorGL s e = '#' :: A ∧ ∀ c ∈ A, c ∈ s ∨ c ∈ e ∨ c = 'L' ∨ c = '-' := by
  by_cases hs : s = []
  · exact Or.inl (by simp [anchorGL, hs])
  · by_cases he : e = []
    · refine Or.inr ⟨'L' :: s, by simp [anchorGL, hs, he], fun c hc => ?_⟩
      rcases List.mem_cons.mp hc with h | h
      · exact Or.inr (Or.inr (Or.inl h))
      · exact Or.inl h
    · refine Or.inr ⟨'L' :: (s ++ '-' :: e),
        by simp [anchorGL, hs, he, List.append_assoc], fun c hc => ?_⟩
      rcases List.mem_cons.mp hc with h | h
      · exact Or.inr (Or.inr (Or.inl h))
      · rcases List.mem_append.mp h with h1 | h1
        · exact Or.inl h1
        · rcases List.mem_cons.mp h1 with h2 | h2
          · exact Or.inr (Or.inr (Or.inr h2))
          · exact Or.inr (Or.inl h2)

lemma noTree_append_hash {X A : Str} (hX : ¬ "tree".data <:+: X) (hA : 't' ∉ A) :
    ¬ "tree".data <:+: X ++ '#' :: A := by
  intro h
  rcases infix_through_sep (by decide) h with h1 | h2
  · exact hX h1
  · exact hA (h2.subset (by decide))

lemma noTree_with_anchor {X line : Str} {anchor : Str}
    (hshape : anchor = [] ∨
      ∃ A, anchor = '#' :: A ∧
        ∀ c ∈ A, c ∈ (parseLineSpec line).1 ∨ c ∈ (parseLineSpec line).2 ∨ c = 'L' ∨ c = '-')
    (hX : ¬ "tree".data <:+: X)
    (hl : ∀ c ∈ line, c.isDigit ∨ c = '-') :
    ¬ "tree".data <:+: X ++ anchor := by
  have hline := t_not_mem_of_wf hl
  rcases hshape with h0 | ⟨A, hA, hmem⟩
  · rw [h0]; simpa using hX
  · rw [hA]
    refine noTree_append_hash hX fun ht => ?_
    rcases hmem 't' ht with h | h | h | h
    · exact hline (parseLineSpec_fst_subset line h)
    · exact hline (parseLineSpec_snd_subset line h)
    · exact absurd h (by decide)
    · exact absurd h (by decide)

lemma goContains_eq_false_iff {s sub : Str} : goContains s sub = false ↔ ¬ sub <:+: s := by
  simp [goContains]

lemma ne_nil_of_goContains {b sub : Str} (h : goContains b sub = true) (hs : sub ≠ []) :
    b ≠ [] := by
  intro hb
  subst hb
  rw [goContains_iff] at h
  exact hs (List.eq_nil_of_infix_nil h)

end Lemmas


/-- C2 counterexample: with a repository whose base URL itself ends in the
segment "tree", a commit-scoped GitHub URL still contains the substring
"tree/", so the "never contains the branch-browsing shape" claim fails as
universally stated. -/
theorem commitURL_shape_cex :
    goContains "https://github.com/u/tree".data "github.com".data = true ∧
    goContains
      (buildWebURL ⟨"https://github.com/u/tree".data, "main".data, "f.go".data⟩ []
        "abc".data) "tree/".data = true :=
  ⟨by decide, by decide⟩

/-- C2 (amended): when the commit hash is non-empty, `buildWebURL` always uses
the selected provider's commit-URL builder and still appends the provider's
line anchor; moreover, whenever the inputs themselves are free of the token
"tree" and the line spec is made of digits and dashes, a GitHub commit URL
never contains "tree/" and a GitLab commit URL never contains the GitLab
branch-browsing marker (slash, dash, slash, "tree", slash). -/
theorem commitURL_no_tree (ctx : repoContext) (line hash : Str) (hh : hash ≠ []) :
    buildWebURL ctx line hash =
      (detectProvider ctx.baseURL).commitURL ctx.baseURL hash ctx.relPath ++
        (detectProvider ctx.baseURL).lineAnchor (parseLineSpec line).1
          (parseLineSpec line).2 ∧
    (goContains ctx.baseURL "github.com".data = true →
      ¬ "tree".data <:+: ctx.baseURL → ¬ "tree".data <:+: hash →
      ¬ "tree".data <:+: ctx.relPath →
      (∀ c ∈ line, c.isDigit ∨ c = '-') →
      goContains (buildWebURL ctx line hash) "tree/".data = false) ∧
    ((goContains ctx.baseURL "gitlab.com".data ||
        goContains ctx.baseURL "gitlab".data) = true →
      goContains ctx.baseURL "github.com".data = false →
      ¬ "tree".data <:+: ctx.baseURL → ¬ "tree".data <:+: hash →
      ¬ "tree".data <:+: ctx.relPath →
      (∀ c ∈ line, c.isDigit ∨ c = '-') →
      goContains (buildWebURL ctx line hash) "/-/tree/".data = false) := by
  have hmain : buildWebURL ctx line hash =
      (detectProvider ctx.baseURL).commitURL ctx.baseURL hash ctx.relPath ++
        (detectProvider ctx.baseURL).lineAnchor (parseLineSpec line).1
          (parseLineSpec line).2 := by
    simp only [buildWebURL, if_pos hh]
  refine ⟨hmain, fun h0 h1 h2 h3 hl => ?_, fun h0 h0g h1 h2 h3 hl => ?_⟩
  · rw [hmain, detect_github h0, goContains_eq_false_iff]
    have hanc := anchorLN_eq_nil_or_hash (parseLineSpec line).1 (parseLineSpec line).2
    have hb := ne_nil_of_goContains h0 (by decide)
    intro hfull
    have htree := (show "tree".data <:+: "tree/".data by decide).trans hfull
    rw [show githubProvider.lineAnchor = anchorLN from rfl] at htree
    by_cases hp : ctx.relPath = []
    · have hfin : githubProvider.commitURL ctx.baseURL hash ctx.relPath ++
          anchorLN (parseLineSpec line).1 (parseLineSpec line).2 =
          ctx.baseURL ++ '/' :: ("commit".data ++ '/' ::
            (hash ++ anchorLN (parseLineSpec line).1 (parseLineSpec line).2)) := by
        rw [hp]
        show pathJoin [ctx.baseURL, "commit".data, hash] ++ _ = _
        rw [pathJoin3 hb (by decide) hh]
        simp only [List.append_assoc, List.cons_append, List.nil_append]
      rw [hfin] at htree
      exact noTree_seg h1 (noTree_seg (by decide)
        (noTree_with_anchor hanc h2 hl)) htree
    · have hfin : githubProvider.commitURL ctx.baseURL hash ctx.relPath ++
          anchorLN (parseLineSpec line).1 (parseLineSpec line).2 =
          ctx.baseURL ++ '/' :: ("blob".data ++ '/' :: (hash ++ '/' ::
            (ctx.relPath ++
              anchorLN (parseLineSpec line).1 (parseLineSpec line).2))) := by
        have hcu : githubProvider.commitURL ctx.baseURL hash ctx.relPath =
            pathJoin [ctx.baseURL, "blob".data, hash, ctx.relPath] := by
          simp only [githubProvider]
          rw [if_neg hp]
        rw [hcu, pathJoin4 hb (by decide) hh hp]
        simp only [List.append_assoc, List.cons_append, List.nil_append]
      rw [hfin] at htree
      exact noTree_seg h1 (noTree_seg (by decide) (noTree_seg h2
        (noTree_with_anchor hanc h3 hl))) htree
  · rw [hmain, detect_gitlab h0g h0, goContains_eq_false_iff]
    have hanc := anchorGL_eq_nil_or_hash (parseLineSpec line).1 (parseLineSpec line).2
    have hb : ctx.baseURL ≠ [] := by
      rcases Bool.or_eq_true_iff.mp h0 with h | h
      · exact ne_nil_of_goContains h (by decide)
      · exact ne_nil_of_goContains h (by decide)
    intro hfull
    have htree := (show "tree".data <:+: "/-/tree/".data by decide).trans hfull
    rw [show gitlabProvider.lineAnchor = anchorGL from rfl] at htree
    by_cases hp : ctx.relPath = []
    · have hfin : gitlabProvider.commitURL ctx.baseURL hash ctx.relPath ++
          anchorGL (parseLineSpec line).1 (parseLineSpec line).2 =
          ctx.baseURL ++ '/' :: (['-'] ++ '/' :: ("commit".data ++ '/' ::
            (hash ++ anchorGL (parseLineSpec line).1 (parseLineSpec line).2))) := by
        rw [hp]
        show pathJoin [ctx.baseURL, "-/commit".data, hash] ++ _ = _
        rw [pathJoin3 hb (by decide) hh]
        simp only [List.append_assoc, List.cons_append, List.nil_append]
        try rfl
      rw [hfin] at htree
      exact noTree_seg h1 (noTree_seg (by decide) (noTree_seg (by decide)
        (noTree_with_anchor hanc h2 hl))) htree
    · have hfin : gitlabProvider.commitURL ctx.baseURL hash ctx.relPath ++
          anchorGL (parseLineSpec line).1 (parseLineSpec line).2 =
          ctx.baseURL ++ '/' :: (['-'] ++ '/' :: ("blob".data ++ '/' ::
            (hash ++ '/' :: (ctx.relPath ++
              anchorGL (parseLineSpec line).1 (parseLineSpec line).2)))) := by
        have hcu : gitlabProvider.commitURL ctx.baseURL hash ctx.relPath =
            pathJoin [ctx.baseURL, "-/blob".data, hash, ctx.relPath] := by
          simp only [gitlabProvider]
          rw [if_neg hp]
        rw [hcu, pathJoin4 hb (by decide) hh hp]
        simp only [List.append_assoc, List.cons_append, List.nil_append]
        try rfl
      rw [hfin] at htree
      exact noTree_seg h1 (noTree_seg (by decide) (noTree_seg (by decide)
        (noTree_seg h2 (noTree_with_anchor hanc h3 hl)))) htree

/-- Witness for C2's amended theorem at a concrete GitHub context. -/
theorem commitURL_no_tree_witness :
    goContains
      (buildWebURL ⟨"https://github.com/u/r".data, "main".data, "f.go".data⟩ "42".data
        "abc".data) "tree/".data = false :=
  (commitURL_no_tree ⟨"https://github.com/u/r".data, "main".data, "f.go".data⟩
    "42".data "abc".data (by decide)).2.1 (by decide) (by decide) (by decide)
    (by decide) (by decide)

namespace Lemmas

/-! ### Facts about the URL normalizer -/

lemma splitFirst_snd_some (sep : Char) :
    ∀ {s rest : Str}, (splitFirst sep s).2 = some rest →
      s = (splitFirst sep s).1 ++ sep :: rest ∧ sep ∉ (splitFirst sep s).1 := by
  intro s
  induction s with
  | nil => intro rest h; simp [splitFirst] at h
  | cons c cs ih =>
    intro rest h
    by_cases hc : c = sep
    · simp only [splitFirst, if_pos hc] at h ⊢
      injection h with h
      subst h hc
      simp
    · simp only [splitFirst, if_neg hc] at h ⊢
      obtain ⟨h1, h2⟩ := ih h
      refine ⟨by rw [List.cons_append, ← h1], fun hm => ?_⟩
      rcases List.mem_cons.mp hm with h3 | h3
      · exact hc h3.symm
      · exact h2 h3

lemma matchGitAt_some {s a b : Str} (h : matchGitAt s = some (a, b)) :
    s = "git@".data ++ a ++ ':' :: b ∧ ':' ∉ a ∧ a ≠ [] ∧ b ≠ [] := by
  unfold matchGitAt at h
  by_cases hpre : "git@".data.isPrefixOf s = true
  · rw [if_pos hpre] at h
    cases hsp : (splitFirst ':' (s.drop 4)).2 with
    | none => rw [hsp] at h; simp at h
    | some rest =>
      rw [hsp] at h
      dsimp only at h
      by_cases h1 : (splitFirst ':' (s.drop 4)).1 = []
      · rw [if_pos h1] at h; simp at h
      · rw [if_neg h1] at h
        by_cases h2 : rest = []
        · rw [if_pos h2] at h; simp at h
        · rw [if_neg h2] at h
          injection h with h
          obtain ⟨ha, hb⟩ := Prod.mk.inj h
          subst ha hb
          obtain ⟨hs2, hnot⟩ := splitFirst_snd_some ':' hsp
          have hsdec : s = "git@".data ++ s.drop 4 := by
            obtain ⟨t, ht⟩ := List.isPrefixOf_iff_prefix.mp hpre
            rw [← ht]
            rfl
          refine ⟨?_, hnot, h1, h2⟩
          conv_lhs => rw [hsdec, hs2]
          rw [List.append_assoc]
  · rw [if_neg hpre] at h; simp at h

lemma isSuffixOf_eq_false_iff {x y : Str} : x.isSuffixOf y = false ↔ ¬ x <:+ y := by
  constructor
  · intro h hsuf
    rw [← List.isSuffixOf_iff_suffix] at hsuf
    rw [h] at hsuf
    cases hsuf
  · intro h
    cases hb : x.isSuffixOf y
    · rfl
    · exact absurd (List.isSuffixOf_iff_suffix.mp hb) h

lemma suffix_append_right_of_length_le {n X Y : Str} (hl : n.length ≤ Y.length)
    (h : n <:+ X ++ Y) : n <:+ Y := by
  obtain ⟨v, hv⟩ := h
  have hlen : v.length + n.length = X.length + Y.length := by
    have hc := congrArg List.length hv
    simpa using hc
  have hXv : X.length ≤ v.length := by omega
  have hY : Y = v.drop X.length ++ n := by
    have h1 : (X ++ Y).drop X.length = Y := List.drop_left X Y
    rw [← h1, ← hv, List.drop_append_of_le_length hXv]
  exact ⟨v.drop X.length, hY.symm⟩

lemma suffix_append_right_of_length_lt {n X Y : Str} (hl : Y.length < n.length)
    (h : n <:+ X ++ Y) : ∃ m, m ≠ [] ∧ m <:+ X ∧ n = m ++ Y := by
  obtain ⟨v, hv⟩ := h
  have hlen : v.length + n.length = X.length + Y.length := by
    have hc := congrArg List.length hv
    simpa using hc
  have hvX : v.length ≤ X.length := by omega
  refine ⟨X.drop v.length, ?_, List.drop_suffix _ _, ?_⟩
  · intro hnil
    have hc := congrArg List.length hnil
    simp at hc
    omega
  · have h1 : (v ++ n).drop v.length = n := List.drop_left v n
    rw [← h1, hv, List.drop_append_of_le_length hvX]

lemma dotgit_not_suffix_append {Z z : Str} (hz : ¬ ".git".data <:+ z) :
    ¬ ".git".data <:+ (Z ++ ['/']) ++ z := by
  intro h
  by_cases hl : (".git".data : Str).length ≤ z.length
  · exact hz (suffix_append_right_of_length_le hl h)
  · obtain ⟨m, hm, hmW, heq⟩ := suffix_append_right_of_length_lt (by omega) h
    have hW : (Z ++ ['/']).getLast? = some '/' := by
      rw [getLast?_append_right (by decide : (['/'] : Str) ≠ [])]
      rfl
    obtain ⟨v, hv⟩ := hmW
    have hm2 : m.getLast? = some '/' := by
      have hx := getLast?_append_right (X := v) hm
      rw [hv, hW] at hx
      exact hx.symm
    have hmem : '/' ∈ ".git".data := by
      rw [heq]
      exact List.mem_append_left _ (List.mem_of_mem_getLast? (by rw [hm2]; rfl))
    exact absurd hmem (by decide)

lemma mem_replaceFirst_of_mem {c d : Char} : ∀ {s : Str}, c ∈ s →
    d ∈ replaceFirst c d s := by
  intro s
  induction s with
  | nil => intro h; cases h
  | cons x xs ih =>
    intro h
    by_cases hx : x = c
    · rw [replaceFirst, if_pos hx]
      exact List.mem_cons_self d xs
    · rw [replaceFirst, if_neg hx]
      rcases List.mem_cons.mp h with h1 | h1
      · exact absurd h1.symm hx
      · exact List.mem_cons_of_mem x (ih h1)

lemma replaceFirst_no_occ {c d : Char} : ∀ {s : Str}, c ∉ s →
    replaceFirst c d s = s := by
  intro s
  induction s with
  | nil => intro h0; rfl
  | cons x xs ih =>
    intro h
    have hx : x ≠ c := fun he => h (he ▸ List.mem_cons_self x xs)
    rw [replaceFirst, if_neg hx, ih fun hm => h (List.mem_cons_of_mem x hm)]

lemma suffix_replaceFirst {n w : Str} {c d : Char} (hd : d ∉ n)
    (h : n <:+ replaceFirst c d w) : n <:+ w := by
  induction w with
  | nil => simpa [replaceFirst] using h
  | cons x xs ih =>
    by_cases hx : x = c
    · rw [replaceFirst, if_pos hx] at h
      rcases List.suffix_cons_iff.mp h with h1 | h2
      · exact absurd (h1 ▸ List.mem_cons_self d xs) hd
      · exact h2.trans (List.suffix_cons x xs)
    · rw [replaceFirst, if_neg hx] at h
      rcases List.suffix_cons_iff.mp h with h1 | h2
      · by_cases hc : c ∈ xs
        · exact absurd (h1 ▸ List.mem_cons_of_mem x (mem_replaceFirst_of_mem hc)) hd
        · rw [replaceFirst_no_occ hc] at h1
          exact h1 ▸ List.suffix_refl _
      · exact (ih h2).trans (List.suffix_cons x xs)

lemma dropPre_suffix {s pre : Str} : dropPre s pre <:+ s := by
  unfold dropPre
  by_cases h : pre.isPrefixOf s = true
  · rw [if_pos h]
    exact List.drop_suffix _ _
  · rw [if_neg h]

end Lemmas

/-- C7 counterexample: an unrecognized remote URL passes through unchanged and
has no HTTPS scheme, and only a single ".git" suffix is stripped, so a
".git.git" remote keeps a ".git" suffix after conversion. -/
theorem convertToHTTPS_cex :
    convertToHTTPS "foo".data = "foo".data ∧
    "https://".data.isPrefixOf (convertToHTTPS "foo".data) = false ∧
    ".git".data.isSuffixOf (convertToHTTPS "ssh://host/r.git.git".data) = true :=
  ⟨by decide, by decide, by decide⟩

/-- C7 (amended): when the remote URL, after the single ".git" strip, is of one
of the recognized forms (git@host:path, ssh://, git://, or already https://)
and the stripped URL does not itself still end in ".git", the normalizer's
output has the HTTPS scheme and carries no ".git" suffix. -/
theorem convertToHTTPS_https (url : Str)
    (hrec : (matchGitAt (trimSuf url ".git".data)).isSome = true ∨
      "ssh://".data.isPrefixOf (trimSuf url ".git".data) = true ∨
      "git://".data.isPrefixOf (trimSuf url ".git".data) = true ∨
      "https://".data.isPrefixOf (trimSuf url ".git".data) = true)
    (hgit : ".git".data.isSuffixOf (trimSuf url ".git".data) = false) :
    "https://".data.isPrefixOf (convertToHTTPS url) = true ∧
    ".git".data.isSuffixOf (convertToHTTPS url) = false := by
  have hgitP : ¬ ".git".data <:+ trimSuf url ".git".data :=
    isSuffixOf_eq_false_iff.mp hgit
  cases hm : matchGitAt (trimSuf url ".git".data) with
  | some hp =>
    obtain ⟨a, b⟩ := hp
    obtain ⟨hs, hca, ha, hb⟩ := matchGitAt_some hm
    have hcv : convertToHTTPS url = "https://".data ++ a ++ '/' :: b := by
      simp only [convertToHTTPS]
      rw [hm]
    have hbu : b <:+ trimSuf url ".git".data :=
      ⟨("git@".data ++ a) ++ [':'], by rw [hs]; exact (List.append_cons _ ':' b).symm⟩
    have hnb : ¬ ".git".data <:+ b := fun hsb => hgitP (hsb.trans hbu)
    constructor
    · rw [hcv, List.isPrefixOf_iff_prefix, List.append_assoc]
      exact List.prefix_append _ _
    · rw [hcv, isSuffixOf_eq_false_iff]
      intro h
      rw [List.append_cons ("https://".data ++ a) '/' b] at h
      exact dotgit_not_suffix_append hnb h
  | none =>
    by_cases hssh : "ssh://".data.isPrefixOf (trimSuf url ".git".data) = true
    · have hcv : convertToHTTPS url = "https://".data ++
          replaceFirst ':' '/'
            (dropPre ((trimSuf url ".git".data).drop 6) "git@".data) := by
        simp only [convertToHTTPS]
        rw [hm, if_pos hssh]
      have hw : ¬ ".git".data <:+
          replaceFirst ':' '/'
            (dropPre ((trimSuf url ".git".data).drop 6) "git@".data) :=
        fun h => hgitP ((suffix_replaceFirst (by decide) h).trans
          (dropPre_suffix.trans (List.drop_suffix 6 _)))
      constructor
      · rw [hcv, List.isPrefixOf_iff_prefix]
        exact List.prefix_append _ _
      · rw [hcv, isSuffixOf_eq_false_iff]
        intro h
        exact dotgit_not_suffix_append (Z := "https:/".data) hw h
    · by_cases hgitp : "git://".data.isPrefixOf (trimSuf url ".git".data) = true
      · have hcv : convertToHTTPS url =
            "https://".data ++ (trimSuf url ".git".data).drop 6 := by
          simp only [convertToHTTPS]
          rw [hm, if_neg hssh, if_pos hgitp]
        have hw : ¬ ".git".data <:+ (trimSuf url ".git".data).drop 6 :=
          fun h => hgitP (h.trans (List.drop_suffix 6 _))
        constructor
        · rw [hcv, List.isPrefixOf_iff_prefix]
          exact List.prefix_append _ _
        · rw [hcv, isSuffixOf_eq_false_iff]
          intro h
          exact dotgit_not_suffix_append (Z := "https:/".data) hw h
      · have hcv : convertToHTTPS url = trimSuf url ".git".data := by
          simp only [convertToHTTPS]
          rw [hm, if_neg hssh, if_neg hgitp]
        rcases hrec with h | h | h | h
        · rw [hm] at h; simp at h
        · exact absurd h hssh
        · exact absurd h hgitp
        · exact ⟨hcv ▸ h, hcv ▸ hgit⟩

/-- Witness for C7's amended theorem at the repository's own test input
"git@github.com:user/repo.git". -/
theorem convertToHTTPS_https_witness :
    "https://".data.isPrefixOf (convertToHTTPS "git@github.com:user/repo.git".data) = true ∧
    ".git".data.isSuffixOf (convertToHTTPS "git@github.com:user/repo.git".data) = false :=
  convertToHTTPS_https "git@github.com:user/repo.git".data (Or.inl (by decide)) (by decide)

namespace Lemmas

/-! ### The legacy line-spec split and ite shapes of the anchors -/

lemma splitFirst_snd_none (sep : Char) :
    ∀ {s : Str}, (splitFirst sep s).2 = none → sep ∉ s := by
  intro s
  induction s with
  | nil => intro _; exact List.not_mem_nil sep
  | cons c cs ih =>
    intro h hm
    by_cases hc : c = sep
    · simp [splitFirst, hc] at h
    · simp only [splitFirst, if_neg hc] at h
      rcases List.mem_cons.mp hm with h1 | h1
      · exact hc h1.symm
      · exact ih h h1

lemma splitAll_no_sep (sep : Char) {s : Str} (h : sep ∉ s) : splitAll sep s = [s] := by
  induction s with
  | nil => rfl
  | cons c cs ih =>
    have hc : c ≠ sep := fun he => h (he ▸ List.mem_cons_self c cs)
    have hcs : sep ∉ cs := fun hm => h (List.mem_cons_of_mem c hm)
    simp [splitAll, hc, ih hcs]

lemma splitAll_one_sep (sep : Char) {x y : Str} (hx : sep ∉ x) (hy : sep ∉ y) :
    splitAll sep (x ++ sep :: y) = [x, y] := by
  induction x with
  | nil => simp [splitAll, splitAll_no_sep sep hy]
  | cons c cs ih =>
    have hc : c ≠ sep := fun he => hx (he ▸ List.mem_cons_self c cs)
    have hcs : sep ∉ cs := fun hm => hx (List.mem_cons_of_mem c hm)
    simp [splitAll, hc, ih hcs]

lemma parse_agree {line : Str} (h : line.count '-' ≤ 1) :
    ((splitAll '-' line).headI, ((splitAll '-' line).tail).headI) = parseLineSpec line := by
  by_cases hmem : '-' ∈ line
  · cases hsp : (splitFirst '-' line).2 with
    | none => exact absurd hmem (splitFirst_snd_none '-' hsp)
    | some rest =>
      obtain ⟨hdec, hnot⟩ := splitFirst_snd_some '-' hsp
      have hcr : '-' ∉ rest := by
        intro hm
        have hc := congrArg (List.count '-') hdec
        rw [List.count_append] at hc
        have h0 : List.count '-' (splitFirst '-' line).1 = 0 :=
          List.count_eq_zero.mpr hnot
        have h1 : 0 < List.count '-' rest := List.count_pos_iff.mpr hm
        have h2 : List.count '-' ('-' :: rest) = List.count '-' rest + 1 :=
          List.count_cons_self '-' rest
        omega
      have hne : line ≠ [] := by
        intro h0
        rw [h0] at hmem
        exact List.not_mem_nil '-' hmem
      conv_lhs => rw [hdec, splitAll_one_sep '-' hnot hcr]
      simp [parseLineSpec, hne, hsp]
  · by_cases hl : line = []
    · subst hl; rfl
    · rw [splitAll_no_sep '-' hmem]
      simp [parseLineSpec, hl, splitFirst_no_sep '-' line hmem]
      rfl

lemma anchorLN_ite (s e : Str) :
    anchorLN s e = (if s ≠ [] then
      (if e ≠ [] then "#L".data ++ s ++ "-L".data ++ e else "#L".data ++ s)
      else []) := by
  by_cases hs : s = [] <;> by_cases he : e = [] <;> simp [anchorLN, hs, he]

lemma anchorGL_ite (s e : Str) :
    anchorGL s e = (if s ≠ [] then
      (if e ≠ [] then "#L".data ++ s ++ "-".data ++ e else "#L".data ++ s)
      else []) := by
  by_cases hs : s = [] <;> by_cases he : e = [] <;> simp [anchorGL, hs, he]

lemma anchorBB_ite (s e : Str) :
    anchorBB s e = (if s ≠ [] then
      (if e ≠ [] then "#lines-".data ++ s ++ ":".data ++ e else "#lines-".data ++ s)
      else []) := by
  by_cases hs : s = [] <;> by_cases he : e = [] <;> simp [anchorBB, hs, he]

lemma anchorADO_ite (s e : Str) :
    anchorADO s e = (if s ≠ [] then
      (if e ≠ [] then
        "&line=".data ++ s ++ "&lineEnd=".data ++ e ++
          "&lineStartColumn=1&lineEndColumn=1".data
       else
        "&line=".data ++ s ++ "&lineEnd=".data ++ s ++
          "&lineStartColumn=1&lineEndColumn=1".data)
      else []) := by
  by_cases hs : s = [] <;> by_cases he : e = [] <;>
    simp [anchorADO, hs, he, List.append_assoc]

lemma pathJoin5 {b t r p q : Str} (hb : b ≠ []) (ht : t ≠ []) (hr : r ≠ [])
    (hp : p ≠ []) (hq : q ≠ []) :
    pathJoin [b, t, r, p, q] = b ++ '/' :: (t ++ '/' :: (r ++ '/' :: (p ++ '/' :: q))) := by
  simp [pathJoin, collectNonEmpty, hb, ht, hr, hp, hq, joinSlash]

end Lemmas

/-- C9 counterexample: a base URL that contains "dev.azure.com" but also the
substring "gitlab" is routed to the GitLab descriptor (scanned earlier), so the
claimed Azure commit-plus-line shape does not hold for every base URL
containing "dev.azure.com". -/
theorem azure_commit_line_cex :
    goContains "https://dev.azure.com/gitlab/proj".data "dev.azure.com".data = true ∧
    buildWebURL ⟨"https://dev.azure.com/gitlab/proj".data, "main".data, []⟩
        "4".data "abc".data ≠
      "https://dev.azure.com/gitlab/proj".data ++ "/commit/".data ++ "abc".data ++
        "&line=".data ++ "4".data ++ "&lineEnd=".data ++ "4".data ++
        "&lineStartColumn=1&lineEndColumn=1".data :=
  ⟨by decide, by decide⟩

/-- C9 (amended): for an Azure DevOps base URL (containing "dev.azure.com" or
"visualstudio.com") that no earlier matcher accepts, with a non-empty commit
hash, an empty relative path and a non-empty dash-free line spec n, the built
URL is exactly base + "/commit/" + hash + "&line=" + n + "&lineEnd=" + n +
"&lineStartColumn=1&lineEndColumn=1": the line suffix starts with '&' even
though the commit page URL carries no '?'. -/
theorem azure_commit_line (ctx : repoContext) (line hash : Str)
    (haz : (goContains ctx.baseURL "dev.azure.com".data ||
      goContains ctx.baseURL "visualstudio.com".data) = true)
    (h0 : goContains ctx.baseURL "github.com".data = false)
    (h1 : (goContains ctx.baseURL "gitlab.com".data ||
      goContains ctx.baseURL "gitlab".data) = false)
    (h2 : goContains ctx.baseURL "bitbucket.org".data = false)
    (hp : ctx.relPath = []) (hh : hash ≠ []) (hl : line ≠ []) (hd : '-' ∉ line) :
    buildWebURL ctx line hash =
      ctx.baseURL ++ "/commit/".data ++ hash ++ "&line=".data ++ line ++
        "&lineEnd=".data ++ line ++ "&lineStartColumn=1&lineEndColumn=1".data := by
  have hdet := detect_azure h0 h1 h2 haz
  have hb : ctx.baseURL ≠ [] := by
    rcases Bool.or_eq_true_iff.mp haz with h | h
    · exact ne_nil_of_goContains h (by decide)
    · exact ne_nil_of_goContains h (by decide)
  have hparse : parseLineSpec line = (line, []) := by
    rw [parseLineSpec, if_neg hl, splitFirst_no_sep '-' line hd]
    rfl
  simp only [buildWebURL, if_pos hh, hdet, hparse]
  rw [hp]
  have hcu : azureProvider.commitURL ctx.baseURL hash [] =
      ctx.baseURL ++ '/' :: ("commit".data ++ '/' :: hash) := by
    show pathJoin [ctx.baseURL, "commit".data, hash] = _
    exact pathJoin3 hb (by decide) hh
  rw [hcu]
  have han : azureProvider.lineAnchor line [] =
      "&line=".data ++ line ++ "&lineEnd=".data ++ line ++
        "&lineStartColumn=1&lineEndColumn=1".data := by
    show anchorADO line [] = _
    simp [anchorADO, hl]
  rw [han]
  simp only [List.append_assoc, List.cons_append, List.nil_append]

/-- Witness for C9's amended theorem at a concrete Azure context. -/
theorem azure_commit_line_witness :
    buildWebURL ⟨"https://dev.azure.com/org/p".data, "main".data, []⟩ "4".data "abc".data =
      "https://dev.azure.com/org/p".data ++ "/commit/".data ++ "abc".data ++
        "&line=".data ++ "4".data ++ "&lineEnd=".data ++ "4".data ++
        "&lineStartColumn=1&lineEndColumn=1".data :=
  azure_commit_line ⟨"https://dev.azure.com/org/p".data, "main".data, []⟩ "4".data
    "abc".data (by decide) (by decide) (by decide) (by decide) rfl (by decide)
    (by decide) (by decide)

namespace Lemmas

/-! ### Per-provider equality of the legacy switch branch and the table entry -/

lemma legacy_github_eq {b br rel hash s e : Str} (hb : b ≠ []) (hbr : br ≠ []) :
    (if hash ≠ [] then
       (if rel = [] then b ++ "/commit/".data ++ hash
        else b ++ "/blob/".data ++ hash ++ "/".data ++ rel)
     else if rel = [] then b ++ "/tree/".data ++ br
     else b ++ "/tree/".data ++ br ++ "/".data ++ rel) ++
    (if s ≠ [] then
      (if e ≠ [] then "#L".data ++ s ++ "-L".data ++ e else "#L".data ++ s)
      else []) =
    (if hash ≠ [] then githubProvider.commitURL b hash rel
     else githubProvider.treeURL b br rel) ++ githubProvider.lineAnchor s e := by
  rw [show githubProvider.lineAnchor = anchorLN from rfl, anchorLN_ite]
  congr 1
  by_cases hh : hash = []
  · subst hh
    rw [if_neg (show ¬([] : Str) ≠ [] from fun h => h rfl),
      if_neg (show ¬([] : Str) ≠ [] from fun h => h rfl)]
    by_cases hrel : rel = []
    · subst hrel
      rw [if_pos (rfl : ([] : Str) = [])]
      show _ = pathJoin [b, "tree".data, br, []]
      rw [pathJoin4_nil hb (by decide) hbr]
      simp [List.append_assoc]
    · rw [if_neg hrel]
      show _ = pathJoin [b, "tree".data, br, rel]
      rw [pathJoin4 hb (by decide) hbr hrel]
      simp [List.append_assoc]
  · rw [if_pos hh, if_pos hh]
    by_cases hrel : rel = []
    · subst hrel
      rw [if_pos (rfl : ([] : Str) = [])]
      show _ = pathJoin [b, "commit".data, hash]
      rw [pathJoin3 hb (by decide) hh]
      simp [List.append_assoc]
    · rw [if_neg hrel]
      have hcu : githubProvider.commitURL b hash rel = pathJoin [b, "blob".data, hash, rel] := by
        simp only [githubProvider]
        rw [if_neg hrel]
      rw [hcu, pathJoin4 hb (by decide) hh hrel]
      simp [List.append_assoc]

lemma legacy_gitlab_eq {b br rel hash s e : Str} (hb : b ≠ []) (hbr : br ≠ []) :
    (if hash ≠ [] then
       (if rel = [] then b ++ "/-/commit/".data ++ hash
        else b ++ "/-/blob/".data ++ hash ++ "/".data ++ rel)
     else if rel = [] then b ++ "/-/tree/".data ++ br
     else b ++ "/-/tree/".data ++ br ++ "/".data ++ rel) ++
    (if s ≠ [] then
      (if e ≠ [] then "#L".data ++ s ++ "-".data ++ e else "#L".data ++ s)
      else []) =
    (if hash ≠ [] then gitlabProvider.commitURL b hash rel
     else gitlabProvider.treeURL b br rel) ++ gitlabProvider.lineAnchor s e := by
  rw [show gitlabProvider.lineAnchor = anchorGL from rfl, anchorGL_ite]
  congr 1
  by_cases hh : hash = []
  · subst hh
    rw [if_neg (show ¬([] : Str) ≠ [] from fun h => h rfl),
      if_neg (show ¬([] : Str) ≠ [] from fun h => h rfl)]
    by_cases hrel : rel = []
    · subst hrel
      rw [if_pos (rfl : ([] : Str) = [])]
      show _ = pathJoin [b, "-/tree".data, br, []]
      rw [pathJoin4_nil hb (by decide) hbr]
      simp [List.append_assoc]
    · rw [if_neg hrel]
      show _ = pathJoin [b, "-/tree".data, br, rel]
      rw [pathJoin4 hb (by decide) hbr hrel]
      simp [List.append_assoc]
  · rw [if_pos hh, if_pos hh]
    by_cases hrel : rel = []
    · subst hrel
      rw [if_pos (rfl : ([] : Str) = [])]
      show _ = pathJoin [b, "-/commit".data, hash]
      rw [pathJoin3 hb (by decide) hh]
      simp [List.append_assoc]
    · rw [if_neg hrel]
      have hcu : gitlabProvider.commitURL b hash rel = pathJoin [b, "-/blob".data, hash, rel] := by
        simp only [gitlabProvider]
        rw [if_neg hrel]
      rw [hcu, pathJoin4 hb (by decide) hh hrel]
      simp [List.append_assoc]

lemma legacy_bitbucket_eq {b br rel hash s e : Str} (hb : b ≠ []) (hbr : br ≠ []) :
    (if hash ≠ [] then
       (if rel = [] then b ++ "/commits/".data ++ hash
        else b ++ "/src/".data ++ hash ++ "/".data ++ rel)
     else if rel = [] then b ++ "/src/".data ++ br
     else b ++ "/src/".data ++ br ++ "/".data ++ rel) ++
    (if s ≠ [] then
      (if e ≠ [] then "#lines-".data ++ s ++ ":".data ++ e else "#lines-".data ++ s)
      else []) =
    (if hash ≠ [] then bitbucketProvider.commitURL b hash rel
     else bitbucketProvider.treeURL b br rel) ++ bitbucketProvider.lineAnchor s e := by
  rw [show bitbucketProvider.lineAnchor = anchorBB from rfl, anchorBB_ite]
  congr 1
  by_cases hh : hash = []
  · subst hh
    rw [if_neg (show ¬([] : Str) ≠ [] from fun h => h rfl),
      if_neg (show ¬([] : Str) ≠ [] from fun h => h rfl)]
    by_cases hrel : rel = []
    · subst hrel
      rw [if_pos (rfl : ([] : Str) = [])]
      show _ = pathJoin [b, "src".data, br, []]
      rw [pathJoin4_nil hb (by decide) hbr]
      simp [List.append_assoc]
    · rw [if_neg hrel]
      show _ = pathJoin [b, "src".data, br, rel]
      rw [pathJoin4 hb (by decide) hbr hrel]
      simp [List.append_assoc]
  · rw [if_pos hh, if_pos hh]
    by_cases hrel : rel = []
    · subst hrel
      rw [if_pos (rfl : ([] : Str) = [])]
      show _ = pathJoin [b, "commits".data, hash]
      rw [pathJoin3 hb (by decide) hh]
      simp [List.append_assoc]
    · rw [if_neg hrel]
      have hcu : bitbucketProvider.commitURL b hash rel = pathJoin [b, "src".data, hash, rel] := by
        simp only [bitbucketProvider]
        rw [if_neg hrel]
      rw [hcu, pathJoin4 hb (by decide) hh hrel]
      simp [List.append_assoc]

lemma legacy_azure_eq {b br rel hash s e : Str} (hb : b ≠ []) :
    (if hash ≠ [] then
       (if rel = [] then b ++ "/commit/".data ++ hash
        else b ++ "?version=GC".data ++ hash ++ "&path=/".data ++ rel)
     else if rel = [] then b ++ "?version=GB".data ++ br
     else b ++ "?version=GB".data ++ br ++ "&path=/".data ++ rel) ++
    (if s ≠ [] then
      (if e ≠ [] then
        "&line=".data ++ s ++ "&lineEnd=".data ++ e ++
          "&lineStartColumn=1&lineEndColumn=1".data
       else
        "&line=".data ++ s ++ "&lineEnd=".data ++ s ++
          "&lineStartColumn=1&lineEndColumn=1".data)
      else []) =
    (if hash ≠ [] then azureProvider.commitURL b hash rel
     else azureProvider.treeURL b br rel) ++ azureProvider.lineAnchor s e := by
  rw [show azureProvider.lineAnchor = anchorADO from rfl, anchorADO_ite]
  congr 1
  by_cases hh : hash = []
  · subst hh
    rw [if_neg (show ¬([] : Str) ≠ [] from fun h => h rfl),
      if_neg (show ¬([] : Str) ≠ [] from fun h => h rfl)]
    by_cases hrel : rel = []
    · subst hrel
      rw [if_pos (rfl : ([] : Str) = [])]
      rfl
    · rw [if_neg hrel]
      have hcu : azureProvider.treeURL b br rel =
          b ++ "?version=GB".data ++ br ++ "&path=/".data ++ rel := by
        simp only [azureProvider]
        rw [if_neg hrel]
      rw [hcu]
  · rw [if_pos hh, if_pos hh]
    by_cases hrel : rel = []
    · subst hrel
      rw [if_pos (rfl : ([] : Str) = [])]
      show _ = pathJoin [b, "commit".data, hash]
      rw [pathJoin3 hb (by decide) hh]
      simp [List.append_assoc]
    · rw [if_neg hrel]
      have hcu : azureProvider.commitURL b hash rel =
          b ++ "?version=GC".data ++ hash ++ "&path=/".data ++ rel := by
        simp only [azureProvider]
        rw [if_neg hrel]
      rw [hcu]

lemma legacy_gitea_eq {b br rel hash s e : Str} (hb : b ≠ []) (hbr : br ≠ []) :
    (if hash ≠ [] then
       (if rel = [] then b ++ "/commit/".data ++ hash
        else b ++ "/src/commit/".data ++ hash ++ "/".data ++ rel)
     else if rel = [] then b ++ "/src/branch/".data ++ br
     else b ++ "/src/branch/".data ++ br ++ "/".data ++ rel) ++
    (if s ≠ [] then
      (if e ≠ [] then "#L".data ++ s ++ "-L".data ++ e else "#L".data ++ s)
      else []) =
    (if hash ≠ [] then giteaProvider.commitURL b hash rel
     else giteaProvider.treeURL b br rel) ++ giteaProvider.lineAnchor s e := by
  rw [show giteaProvider.lineAnchor = anchorLN from rfl, anchorLN_ite]
  congr 1
  by_cases hh : hash = []
  · subst hh
    rw [if_neg (show ¬([] : Str) ≠ [] from fun h => h rfl),
      if_neg (show ¬([] : Str) ≠ [] from fun h => h rfl)]
    by_cases hrel : rel = []
    · subst hrel
      rw [if_pos (rfl : ([] : Str) = [])]
      show _ = pathJoin [b, "src/branch".data, br, []]
      rw [pathJoin4_nil hb (by decide) hbr]
      simp [List.append_assoc]
    · rw [if_neg hrel]
      show _ = pathJoin [b, "src/branch".data, br, rel]
      rw [pathJoin4 hb (by decide) hbr hrel]
      simp [List.append_assoc]
  · rw [if_pos hh, if_pos hh]
    by_cases hrel : rel = []
    · subst hrel
      rw [if_pos (rfl : ([] : Str) = [])]
      show _ = pathJoin [b, "commit".data, hash]
      rw [pathJoin3 hb (by decide) hh]
      simp [List.append_assoc]
    · rw [if_neg hrel]
      have hcu : giteaProvider.commitURL b hash rel =
          pathJoin [b, "src/commit".data, hash, rel] := by
        simp only [giteaProvider]
        rw [if_neg hrel]
      rw [hcu, pathJoin4 hb (by decide) hh hrel]
      simp [List.append_assoc]

lemma legacy_gogs_eq {b br rel hash s e : Str} (hb : b ≠ []) (hbr : br ≠ []) :
    (if hash ≠ [] then
       (if rel = [] then b ++ "/commit/".data ++ hash
        else b ++ "/src/".data ++ hash ++ "/".data ++ rel)
     else if rel = [] then b ++ "/src/".data ++ br
     else b ++ "/src/".data ++ br ++ "/".data ++ rel) ++
    (if s ≠ [] then
      (if e ≠ [] then "#L".data ++ s ++ "-L".data ++ e else "#L".data ++ s)
      else []) =
    (if hash ≠ [] then gogsProvider.commitURL b hash rel
     else gogsProvider.treeURL b br rel) ++ gogsProvider.lineAnchor s e := by
  rw [show gogsProvider.lineAnchor = anchorLN from rfl, anchorLN_ite]
  congr 1
  by_cases hh : hash = []
  · subst hh
    rw [if_neg (show ¬([] : Str) ≠ [] from fun h => h rfl),
      if_neg (show ¬([] : Str) ≠ [] from fun h => h rfl)]
    by_cases hrel : rel = []
    · subst hrel
      rw [if_pos (rfl : ([] : Str) = [])]
      show _ = pathJoin [b, "src".data, br, []]
      rw [pathJoin4_nil hb (by decide) hbr]
      simp [List.append_assoc]
    · rw [if_neg hrel]
      show _ = pathJoin [b, "src".data, br, rel]
      rw [pathJoin4 hb (by decide) hbr hrel]
      simp [List.append_assoc]
  · rw [if_pos hh, if_pos hh]
    by_cases hrel : rel = []
    · subst hrel
      rw [if_pos (rfl : ([] : Str) = [])]
      show _ = pathJoin [b, "commit".data, hash]
      rw [pathJoin3 hb (by decide) hh]
      simp [List.append_assoc]
    · rw [if_neg hrel]
      have hcu : gogsProvider.commitURL b hash rel = pathJoin [b, "src".data, hash, rel] := by
        simp only [gogsProvider]
        rw [if_neg hrel]
      rw [hcu, pathJoin4 hb (by decide) hh hrel]
      simp [List.append_assoc]

lemma legacy_codecommit_eq {b br rel hash s e : Str} (hb : b ≠ []) (hbr : br ≠ []) :
    (if hash ≠ [] then
       (if rel = [] then b ++ "/commit/".data ++ hash
        else b ++ "/browse/".data ++ hash ++ "/--/".data ++ rel)
     else if rel = [] then b ++ "/browse/refs/heads/".data ++ br ++ "/--/".data
     else b ++ "/browse/refs/heads/".data ++ br ++ "/--/".data ++ rel) =
    (if hash ≠ [] then codecommitProvider.commitURL b hash rel
     else codecommitProvider.treeURL b br rel) ++ codecommitProvider.lineAnchor s e := by
  rw [show codecommitProvider.lineAnchor s e = [] from rfl, List.append_nil]
  by_cases hh : hash = []
  · subst hh
    rw [if_neg (show ¬([] : Str) ≠ [] from fun h => h rfl),
      if_neg (show ¬([] : Str) ≠ [] from fun h => h rfl)]
    by_cases hrel : rel = []
    · subst hrel
      rw [if_pos (rfl : ([] : Str) = [])]
      show _ = pathJoin [b, "browse/refs/heads".data, br, "--".data] ++ "/".data
      rw [pathJoin4 hb (by decide) hbr (by decide)]
      simp [List.append_assoc]
    · rw [if_neg hrel]
      have hcu : codecommitProvider.treeURL b br rel =
          pathJoin [b, "browse/refs/heads".data, br, "--".data, rel] := by
        simp only [codecommitProvider]
        rw [if_neg hrel]
      rw [hcu, pathJoin5 hb (by decide) hbr (by decide) hrel]
      simp [List.append_assoc]
  · rw [if_pos hh, if_pos hh]
    by_cases hrel : rel = []
    · subst hrel
      rw [if_pos (rfl : ([] : Str) = [])]
      show _ = pathJoin [b, "commit".data, hash]
      rw [pathJoin3 hb (by decide) hh]
      simp [List.append_assoc]
    · rw [if_neg hrel]
      have hcu : codecommitProvider.commitURL b hash rel =
          pathJoin [b, "browse".data, hash, "--".data, rel] := by
        simp only [codecommitProvider]
        rw [if_neg hrel]
      rw [hcu, pathJoin5 hb (by decide) hh (by decide) hrel]
      simp [List.append_assoc]

end Lemmas

/-- C8 counterexample: on the line spec "1-2-3" the legacy builder (full
`strings.Split`, endLine = the segment between the first two dashes) and the
provider-table builder (`strings.SplitN` with limit 2, endLine = the whole
remainder) produce different URLs. -/
theorem buildWebURL_equiv_cex :
    buildWebURLLegacy "https://github.com/u/r".data "main".data [] "1-2-3".data [] ≠
      buildWebURL ⟨"https://github.com/u/r".data, "main".data, []⟩ "1-2-3".data [] := by
  decide

/-- C8 (amended): for every non-empty base URL and branch, any relative path
(with "." treated as empty), any commit hash, and any line spec containing at
most one dash, the legacy five-argument builder and the provider-table builder
return the identical URL string; the two differ exactly on multi-dash line
specs, where the legacy endLine is the second `Split` segment while the table
builder keeps the whole remainder. -/
theorem buildWebURL_equiv (b br rel line hash : Str) (hb : b ≠ []) (hbr : br ≠ [])
    (hcount : line.count '-' ≤ 1) :
    buildWebURLLegacy b br rel line hash =
      buildWebURL ⟨b, br, if rel = ".".data ∨ rel = [] then [] else rel⟩ line hash := by
  have hparse := parse_agree hcount
  have hs : (splitAll '-' line).headI = (parseLineSpec line).1 :=
    congrArg Prod.fst hparse
  have he : ((splitAll '-' line).tail).headI = (parseLineSpec line).2 :=
    congrArg Prod.snd hparse
  simp only [buildWebURLLegacy, buildWebURL]
  have hs2 : (if line = [] then [] else (splitAll '-' line).headI) =
      (parseLineSpec line).1 := by
    by_cases hline : line = []
    · subst hline; rfl
    · rw [if_neg hline, hs]
  have he2 : (if line = [] then [] else ((splitAll '-' line).tail).headI) =
      (parseLineSpec line).2 := by
    by_cases hline : line = []
    · subst hline; rfl
    · rw [if_neg hline, he]
  rw [hs2, he2]
  by_cases g0 : goContains b "github.com".data = true
  · rw [if_pos g0, detect_github g0]
    exact legacy_github_eq hb hbr
  · have g0f : goContains b "github.com".data = false := by simpa using g0
    rw [if_neg g0]
    by_cases g1 : (goContains b "gitlab.com".data || goContains b "gitlab".data) = true
    · rw [if_pos g1, detect_gitlab g0f g1]
      exact legacy_gitlab_eq hb hbr
    · have g1f : (goContains b "gitlab.com".data || goContains b "gitlab".data) = false := by
        simpa using g1
      rw [if_neg g1]
      by_cases g2 : goContains b "bitbucket.org".data = true
      · rw [if_pos g2, detect_bitbucket g0f g1f g2]
        exact legacy_bitbucket_eq hb hbr
      · have g2f : goContains b "bitbucket.org".data = false := by simpa using g2
        rw [if_neg g2]
        by_cases g3 : (goContains b "dev.azure.com".data ||
            goContains b "visualstudio.com".data) = true
        · rw [if_pos g3, detect_azure g0f g1f g2f g3]
          exact legacy_azure_eq hb
        · have g3f : (goContains b "dev.azure.com".data ||
              goContains b "visualstudio.com".data) = false := by simpa using g3
          rw [if_neg g3]
          by_cases g4 : goContains b "gitea".data = true
          · rw [if_pos g4, detect_gitea g0f g1f g2f g3f g4]
            exact legacy_gitea_eq hb hbr
          · have g4f : goContains b "gitea".data = false := by simpa using g4
            rw [if_neg g4]
            by_cases g5 : goContains b "gogs".data = true
            · rw [if_pos g5, detect_gogs g0f g1f g2f g3f g4f g5]
              exact legacy_gogs_eq hb hbr
            · have g5f : goContains b "gogs".data = false := by simpa using g5
              rw [if_neg g5]
              by_cases g6 : (goContains b "console.aws.amazon.com".data ||
                  goContains b "codecommit".data) = true
              · rw [if_pos g6, detect_codecommit g0f g1f g2f g3f g4f g5f g6]
                exact legacy_codecommit_eq hb hbr
              · have g6f : (goContains b "console.aws.amazon.com".data ||
                    goContains b "codecommit".data) = false := by simpa using g6
                rw [if_neg g6, detect_default g0f g1f g2f g3f g4f g5f g6f]
                exact legacy_github_eq hb hbr

/-- Witness for C8's amended theorem at a concrete GitHub input. -/
theorem buildWebURL_equiv_witness :
    buildWebURLLegacy "https://github.com/u/r".data "main".data "f.go".data
        "42-50".data [] =
      buildWebURL ⟨"https://github.com/u/r".data, "main".data, "f.go".data⟩
        "42-50".data [] :=
  buildWebURL_equiv "https://github.com/u/r".data "main".data "f.go".data
    "42-50".data [] (by decide) (by decide) (by decide)

end Gopen
